import Mathlib

/-!
Verification of the resampling core of `src/utils.py` (functions
`identifyTimeIntervals` and `interpolate`).

Modelling conventions, fixed once for the whole file:

* A `datetime` value is modelled by its position on the time axis as an
  integer `ℤ` in one fixed time unit (the spec, section 4.3, notes that the
  code projects calendar time to a linear numeric axis via `timestamp()`;
  the projection is monotone and injective, so we work on the projected
  axis directly).  `timedelta` durations (`delta`, `max_interval`) are
  integers in the same unit, so `timedelta(minutes=m)` is just `m`.
* Temperature values are rationals `ℚ` (the code uses floats; all claims
  under verification are exact-arithmetic statements).
* The scipy fitting call of each interpolation mode
  (`BSpline` / `interp1d` / `UnivariateSpline`, src/utils.py lines 224-229)
  is a parameter `F : List (ℤ × ℚ) → Except Unit (ℤ → ℚ)`: it receives the
  selected data points (`x_unix[inds]`, `y_vals[inds]` — a boolean mask
  applied to two parallel arrays, i.e. a filter of their zip) and either
  raises `ValueError` (`Except.error`) or returns an evaluator.  The
  hard-coded global fallback `interp1d(x_unix, y_vals, kind=1)` at
  line 247 is modelled concretely by `interp1dK 1` below.
* NumPy in-place updates (`y_interp[mask] = ...`, `valid |= ...`) are
  functional updates on the fields of an explicit state record
  `InterpState`, which also carries the caller-visible lists `x_vals`,
  `y_vals` so that absence of mutation is a provable statement.
-/

/-- Error kinds of the Python code paths under verification.
`indexError` models the `IndexError` from `x_vals[0]` on an empty list
(src/utils.py line 190), `valueError` the scipy `ValueError` that is not
caught at line 247, `assertionError` the `assert` at line 256.
`invalidConfiguration` is the spec's error kind (spec sections 4.2 and 7);
the code never raises it — the constructor exists only so that claims
about it can be stated and refuted. -/
inductive InterpError where
  | indexError
  | valueError
  | assertionError
  | invalidConfiguration
  deriving DecidableEq

/-- Loop body of `identifyTimeIntervals` (src/utils.py lines 139-153),
walking `times[1:]` with `prev` holding `times[i-1]`.  The state is the
optional open-run start `start` and the accumulated `intervals` list; an
interval is appended only when a gap exceeding `mi` is met while a run is
open — exactly as in the source, with no closing of the final open run. -/
def identifyAux (mi : ℤ) : ℤ → List ℤ → Option ℤ → List (ℤ × ℤ) →
    Option ℤ × List (ℤ × ℤ)
  | _, [], start, intervals => (start, intervals)
  | prev, t :: ts, start, intervals =>
    if t - prev ≤ mi then
      match start with
      | none => identifyAux mi t ts (some prev) intervals
      | some s => identifyAux mi t ts (some s) intervals
    else
      match start with
      | some s => identifyAux mi t ts none (intervals ++ [(s, prev)])
      | none => identifyAux mi t ts none intervals

/-- Embedding of `identifyTimeIntervals` (src/utils.py lines 118-160).
With `max_interval = None` the function returns the single interval
`[times[0], times[-1]]` (line 131).  Otherwise it walks consecutive pairs
(`identifyAux`) and finally applies the special case of line 156:
if `start == times[0]` the whole list is replaced by one spanning
interval; note that an open run whose start is not `times[0]` is dropped.
On an empty `times` Python raises `IndexError` at `times[0]`; the claims
under verification only concern non-empty inputs, for which the
`List.headI` / `List.getLastD` defaults below are never exercised. -/
def identifyTimeIntervals (times : List ℤ) (max_interval : Option ℤ) :
    List (ℤ × ℤ) :=
  match max_interval, times with
  | none, ts => [(ts.headI, ts.getLastD 0)]
  | some _, [] => []
  | some m, t0 :: ts =>
    let r := identifyAux m t0 ts none []
    if r.1 = some t0 then [(t0, (t0 :: ts).getLastD 0)] else r.2

/-- Fuel-indexed form of the grid `while` loop of src/utils.py
lines 192-194: starting from the current last element `cur`, while
`cur + delta ≤ xl` another element is appended.  One unit of fuel allows
one loop-guard evaluation; `buildGrid` supplies enough fuel for every
positive `delta` (lemma `buildGridAux_fuel_stable` style results below),
while for `delta ≤ 0` the loop of the source never exits — captured by
the theorem for claim C4, which shows every amount of fuel is consumed. -/
def buildGridAux (xl delta : ℤ) : ℕ → ℤ → List ℤ
  | 0, cur => [cur]
  | n + 1, cur =>
    if cur + delta ≤ xl then cur :: buildGridAux xl delta n (cur + delta)
    else [cur]

/-- Grid construction of src/utils.py lines 192-194: `x_interp = [x_vals[0]]`
followed by the `while` loop.  `(xl - x0).toNat` guard evaluations always
suffice when `delta > 0`, because each iteration advances by at least 1. -/
def buildGrid (x0 xl delta : ℤ) : List ℤ :=
  buildGridAux xl delta (xl - x0).toNat x0

/-- Full grid of src/utils.py lines 192-198: the base grid, and if
`keep_old` is set, `sorted(list(set(x_interp + x_vals)))` — modelled as
deduplication followed by an ascending sort, which produces the same
strictly sorted duplicate-free enumeration of the union. -/
def gridFull (x_vals : List ℤ) (delta : ℤ) (keep_old : Bool) : List ℤ :=
  match x_vals with
  | [] => []
  | x0 :: rest =>
    let base := buildGrid x0 ((x0 :: rest).getLastD 0) delta
    if keep_old then
      List.insertionSort (fun a b : ℤ => a ≤ b) ((base ++ (x0 :: rest)).dedup)
    else base

/-- Value of the linear interpolant through points `p` and `q` at `t`. -/
def lerpVal (p q : ℤ × ℚ) (t : ℤ) : ℚ :=
  p.2 + (q.2 - p.2) * ((t - p.1 : ℤ) : ℚ) / ((q.1 - p.1 : ℤ) : ℚ)

/-- Piecewise-linear interpolant through a sorted point list, the
documented semantics of `scipy.interpolate.interp1d(x, y, kind=1)`.
All evaluations performed by the code happen inside the data range
(spec section 4.4: no extrapolation case can occur), so the behaviour
outside the range is irrelevant to every claim. -/
def lerp : List (ℤ × ℚ) → ℤ → ℚ
  | [], _ => 0
  | [p], _ => p.2
  | p :: q :: rest, t => if t ≤ q.1 then lerpVal p q t else lerp (q :: rest) t

/-- Model of `scipy.interpolate.interp1d(x, y, kind=k)` from its documented
behaviour: construction raises `ValueError` when the arrays have fewer
than 2 entries, or fewer than the `k + 1` entries a degree-`k` spline
needs; otherwise it returns an interpolant that passes exactly through
the data points.  For `k = 1` the interpolant is exactly the
piecewise-linear `lerp`; for other `k` only the feasibility test and the
exact-interpolation property (`interp1dK_interpolating`) are relied upon
by the theorems below. -/
def interp1dK (k : ℕ) (pts : List (ℤ × ℚ)) : Except Unit (ℤ → ℚ) :=
  if pts.length < 2 ∨ pts.length < k + 1 then Except.error ()
  else Except.ok (lerp pts)

/-- Model of `scipy.interpolate.UnivariateSpline(x, y, k=1)` with its
default smoothing factor `s = m` (`m` the number of data points), the
backend selected by `interpolation_mode = "univ"` (src/utils.py
line 229), from the documented FITPACK behaviour: the fit is the
degree-`k` spline with the fewest knots whose sum of squared residuals
is at most `s`; with no interior knots that is the ordinary
least-squares straight line through the data, which is the result
whenever that line already meets the budget — as it does at every input
this file evaluates the model on (residual 2/3 against budget 3 in the
C2 counterexample).  The fit is approximating, not interpolating: in
general it does not pass through the data points.  Construction raises
`ValueError` on fewer than `k + 1 = 2` points. -/
def univSplineLin (pts : List (ℤ × ℚ)) : Except Unit (ℤ → ℚ) :=
  if pts.length < 2 then Except.error ()
  else
    let n : ℚ := pts.length
    let sx : ℚ := (pts.map (fun p => ((p.1 : ℤ) : ℚ))).sum
    let sy : ℚ := (pts.map (fun p => p.2)).sum
    let sxx : ℚ := (pts.map (fun p => ((p.1 : ℤ) : ℚ) * ((p.1 : ℤ) : ℚ))).sum
    let sxy : ℚ := (pts.map (fun p => ((p.1 : ℤ) : ℚ) * p.2)).sum
    let b : ℚ := (n * sxy - sx * sy) / (n * sxx - sx * sx)
    let a : ℚ := (sy - b * sx) / n
    Except.ok (fun t => a + b * ((t : ℤ) : ℚ))

/-- A fitting backend is interpolating when every evaluator it returns on a
strictly sorted point list passes exactly through the given points.  This
is the property the spec asserts of `PolynomialInterpolant` fits
(spec section 4.3) and which `interp1d` has by documentation. -/
def FitInterpolating (F : List (ℤ × ℚ) → Except Unit (ℤ → ℚ)) : Prop :=
  ∀ pts f, List.Sorted (fun p q : ℤ × ℚ => p.1 < q.1) pts →
    F pts = Except.ok f → ∀ p ∈ pts, f p.1 = p.2

/-- Mutable state visible during the per-interval loop of src/utils.py
lines 218-244: the caller's input lists `x_vals`, `y_vals` (read, and —
as claim C9 states — never written), the result array `y_interp`
(line 201), and the two coverage masks (lines 215, 217). -/
structure InterpState where
  x_vals : List ℤ
  y_vals : List ℚ
  y_interp : List ℚ
  valid_inds : List Bool
  valid_inds_interp : List Bool

/-- Data points of one interval, src/utils.py lines 221 and 225-229: the
boolean mask `x_vals >= t[0] & x_vals <= t[-1]` applied to the parallel
arrays `x_unix` and `y_vals`, i.e. a filter of their zip. -/
def intervalPts (x_vals : List ℤ) (y_vals : List ℚ) (t : ℤ × ℤ) :
    List (ℤ × ℚ) :=
  (x_vals.zip y_vals).filter fun p => decide (t.1 ≤ p.1 ∧ p.1 ≤ t.2)

/-- Body of the per-interval loop, src/utils.py lines 218-244.  A failing
fit (`ValueError`, line 241) skips the interval leaving the state
untouched; a successful fit writes `func` values into `y_interp` at the
grid positions inside the interval (line 234) and switches the
corresponding mask bits on (lines 237-239). -/
def intervalStep (F : List (ℤ × ℚ) → Except Unit (ℤ → ℚ)) (x_interp : List ℤ)
    (s : InterpState) (t : ℤ × ℤ) : InterpState :=
  match F (intervalPts s.x_vals s.y_vals t) with
  | Except.error _ => s
  | Except.ok f =>
    { s with
      y_interp := List.zipWith
        (fun x y => if t.1 ≤ x ∧ x ≤ t.2 then f x else y) x_interp s.y_interp
      valid_inds := List.zipWith
        (fun x b => b || decide (t.1 ≤ x ∧ x ≤ t.2)) s.x_vals s.valid_inds
      valid_inds_interp := List.zipWith
        (fun x b => b || decide (t.1 ≤ x ∧ x ≤ t.2)) x_interp
        s.valid_inds_interp }

/-- State before the per-interval loop: `y_interp = np.zeros(len(x_interp))`
(line 201) and the two all-false masks (lines 215, 217). -/
def initState (x_vals : List ℤ) (y_vals : List ℚ) (x_interp : List ℤ) :
    InterpState :=
  ⟨x_vals, y_vals, List.replicate x_interp.length 0,
   List.replicate x_vals.length false, List.replicate x_interp.length false⟩

/-- The whole per-interval loop of src/utils.py lines 213-244: a left fold
of `intervalStep` over `identifyTimeIntervals x_vals max_interval`. -/
def runLoop (F : List (ℤ × ℚ) → Except Unit (ℤ → ℚ)) (x_vals : List ℤ)
    (y_vals : List ℚ) (delta : ℤ) (keep_old : Bool)
    (max_interval : Option ℤ) : InterpState :=
  (identifyTimeIntervals x_vals max_interval).foldl
    (intervalStep F (gridFull x_vals delta keep_old))
    (initState x_vals y_vals (gridFull x_vals delta keep_old))

/-- Gap filling, src/utils.py line 249: every position whose coverage bit
is false receives the global linear interpolant value. -/
def gapFill (g : ℤ → ℚ) (x_interp : List ℤ) (valid : List Bool)
    (y : List ℚ) : List ℚ :=
  List.zipWith (fun xb y => if xb.2 then y else g xb.1) (x_interp.zip valid) y

/-- Provenance indices, src/utils.py lines 278-279: the positions of
`x_interp` whose timestamp is not an original one (`x not in x_set`). -/
def indsInterp (x_interp : List ℤ) (x_vals : List ℤ) : List ℕ :=
  (List.range x_interp.length).filter fun i =>
    decide (x_interp.getD i 0 ∉ x_vals)

/-- Embedding of the datetime branch of `interpolate`
(src/utils.py lines 162-252 and 276-281).  `F` is the fitting backend
selected by `interpolation_mode` for the per-interval fits; the global
fallback of line 247 is the hard-coded `interp1d(..., kind=1)`, i.e.
`interp1dK 1`.  An empty `x_vals` raises `IndexError` at line 190; a
failing global fit construction raises `ValueError` outside any
`try` block. -/
def interpolate (F : List (ℤ × ℚ) → Except Unit (ℤ → ℚ)) (x_vals : List ℤ)
    (y_vals : List ℚ) (delta : ℤ) (keep_old : Bool)
    (max_interval : Option ℤ) :
    Except InterpError (List ℤ × List ℚ × List ℕ) :=
  match x_vals with
  | [] => Except.error InterpError.indexError
  | x0 :: rest =>
    let xi := gridFull (x0 :: rest) delta keep_old
    let s1 := runLoop F (x0 :: rest) y_vals delta keep_old max_interval
    match interp1dK 1 (s1.x_vals.zip s1.y_vals) with
    | Except.error _ => Except.error InterpError.valueError
    | Except.ok g =>
      Except.ok (xi, gapFill g xi s1.valid_inds_interp s1.y_interp,
        indsInterp xi s1.x_vals)

/-- Model of `np.arange(x0, xl, delta)` for a rational axis (src/utils.py
line 259): the values `x0 + k * delta` for `0 ≤ k < ⌈(xl - x0) / delta⌉`.
For `delta < 0` and `x0 ≤ xl` the result is empty; `delta = 0` (where
NumPy raises) is not reached by any claim. -/
def arange (x0 xl delta : ℚ) : List ℚ :=
  if 0 < delta then
    (List.range (⌈(xl - x0) / delta⌉).toNat).map fun k => x0 + (k : ℚ) * delta
  else []

/-- Embedding of the numeric (non-datetime) branch of `interpolate`,
src/utils.py lines 254-281.  The branch is entered when `x_vals[0]` is
not a `datetime` (an empty `x_vals` still raises `IndexError` at
line 190, before the branch).  Its first statement is
`assert max_interval is None` (line 256).  Afterwards: the `arange`
grid; for `keep_old` the expression `x_interp + x_vals` adds a NumPy
array to a list elementwise — a broadcast error when the lengths differ
(the degenerate length-1 broadcast is not modelled; no claim depends on
it) — and the result is deduplicated and sorted; then the fit `F` over
the whole series is evaluated on the grid. -/
def interpolateNumeric (F : List (ℚ × ℚ) → Except Unit (ℚ → ℚ))
    (x_vals y_vals : List ℚ) (delta : ℚ) (keep_old : Bool)
    (max_interval : Option ℤ) :
    Except InterpError (List ℚ × List ℚ × List ℕ) :=
  match x_vals with
  | [] => Except.error InterpError.indexError
  | x0 :: rest =>
    match max_interval with
    | some _ => Except.error InterpError.assertionError
    | none =>
      let xl := (x0 :: rest).getLastD 0
      let base := arange x0 xl delta
      let xiE : Except InterpError (List ℚ) :=
        if keep_old then
          if base.length = (x0 :: rest).length then
            Except.ok (List.insertionSort (fun a b : ℚ => a ≤ b)
              (List.zipWith (fun a b : ℚ => a + b) base (x0 :: rest)).dedup)
          else Except.error InterpError.valueError
        else Except.ok base
      match xiE with
      | Except.error e => Except.error e
      | Except.ok xi =>
        match F ((x0 :: rest).zip y_vals) with
        | Except.error _ => Except.error InterpError.valueError
        | Except.ok f =>
          Except.ok (xi, xi.map f,
            (List.range xi.length).filter fun i =>
              decide (xi.getD i 0 ∉ x_vals))

deriving instance DecidableEq for Except

/-! Helper lemmas: list indexing, sortedness, the grid loop, and the
linear interpolant. -/

theorem getD_zipWith_mask (xi : List ℤ) (l : List Bool) (p : ℤ → Bool) (i : ℕ)
    (hi : i < xi.length) (hl : l.length = xi.length) :
    (List.zipWith (fun x b => b || p x) xi l).getD i false =
      (l.getD i false || p (xi.getD i 0)) := by
  have hlen : (List.zipWith (fun x b => b || p x) xi l).length = xi.length := by
    simp [List.length_zipWith, hl]
  rw [List.getD_eq_getElem _ _ (by rw [hlen]; exact hi),
    List.getElem_zipWith,
    List.getD_eq_getElem _ _ (by rw [hl]; exact hi),
    List.getD_eq_getElem _ _ hi]

theorem getD_zipWith_write (xi : List ℤ) (l : List ℚ) (p : ℤ → Prop)
    [DecidablePred p] (f : ℤ → ℚ) (i : ℕ)
    (hi : i < xi.length) (hl : l.length = xi.length) :
    (List.zipWith (fun x y => if p x then f x else y) xi l).getD i 0 =
      if p (xi.getD i 0) then f (xi.getD i 0) else l.getD i 0 := by
  have hlen :
      (List.zipWith (fun x y => if p x then f x else y) xi l).length =
        xi.length := by
    simp [List.length_zipWith, hl]
  rw [List.getD_eq_getElem _ _ (by rw [hlen]; exact hi),
    List.getElem_zipWith,
    List.getD_eq_getElem _ _ hi,
    List.getD_eq_getElem _ _ (by rw [hl]; exact hi)]

theorem getD_gapFill (g : ℤ → ℚ) (xi : List ℤ) (valid : List Bool)
    (y : List ℚ) (i : ℕ) (hi : i < xi.length)
    (hv : valid.length = xi.length) (hy : y.length = xi.length) :
    (gapFill g xi valid y).getD i 0 =
      if valid.getD i false = true then y.getD i 0 else g (xi.getD i 0) := by
  unfold gapFill
  rw [List.getD_eq_getElem _ _
      (by simp [List.length_zipWith, List.length_zip, hv, hy]; omega),
    List.getElem_zipWith, List.getElem_zip,
    List.getD_eq_getElem valid _ (by rw [hv]; exact hi),
    List.getD_eq_getElem y _ (by rw [hy]; exact hi),
    List.getD_eq_getElem xi _ hi]

theorem getD_replicate_self {α : Type} (a d : α) (n i : ℕ) (hi : i < n) :
    (List.replicate n a).getD i d = a := by
  rw [List.getD_eq_getElem _ _ (by simpa using hi), List.getElem_replicate]

theorem getD_pair_mem_zip (x : List ℤ) (y : List ℚ) (j : ℕ)
    (hj : j < x.length) (hlen : x.length = y.length) :
    (x.getD j 0, y.getD j 0) ∈ x.zip y := by
  have hz : (x.zip y).length = x.length := by
    simp [List.length_zip, ← hlen]
  have hjz : j < (x.zip y).length := by rw [hz]; exact hj
  have h := List.getElem_mem hjz
  rw [List.getElem_zip] at h
  rw [List.getD_eq_getElem x _ hj,
    List.getD_eq_getElem y _ (by rw [← hlen]; exact hj)]
  exact h

theorem mem_intervalPts (x : List ℤ) (y : List ℚ) (t : ℤ × ℤ) (j : ℕ)
    (hj : j < x.length) (hlen : x.length = y.length)
    (h1 : t.1 ≤ x.getD j 0) (h2 : x.getD j 0 ≤ t.2) :
    (x.getD j 0, y.getD j 0) ∈ intervalPts x y t := by
  rw [intervalPts, List.mem_filter]
  exact ⟨getD_pair_mem_zip x y j hj hlen, decide_eq_true ⟨h1, h2⟩⟩

theorem zip_sorted_fst (x : List ℤ) (y : List ℚ)
    (hs : List.Sorted (fun a b : ℤ => a < b) x) :
    List.Sorted (fun p q : ℤ × ℚ => p.1 < q.1) (x.zip y) := by
  induction x generalizing y with
  | nil => simp [List.Sorted]
  | cons a xs ih =>
    cases y with
    | nil => simp [List.Sorted]
    | cons b ys =>
      rw [List.zip_cons_cons, List.sorted_cons]
      rw [List.sorted_cons] at hs
      refine ⟨fun p hp => ?_, ih ys hs.2⟩
      exact hs.1 p.1 (List.of_mem_zip hp).1

theorem intervalPts_sorted (x : List ℤ) (y : List ℚ) (t : ℤ × ℤ)
    (hs : List.Sorted (fun a b : ℤ => a < b) x) :
    List.Sorted (fun p q : ℤ × ℚ => p.1 < q.1) (intervalPts x y t) :=
  List.Pairwise.sublist (List.filter_sublist _) (zip_sorted_fst x y hs)

theorem headI_le_of_sorted (l : List ℤ)
    (hs : List.Sorted (fun a b : ℤ => a ≤ b) l) : ∀ z ∈ l, l.headI ≤ z := by
  cases l with
  | nil => intro z hz; cases hz
  | cons a t =>
    rw [List.sorted_cons] at hs
    intro z hz
    rcases List.mem_cons.mp hz with h | h
    · simp [List.headI, h]
    · simpa [List.headI] using hs.1 z h

theorem getLastD_mem_or_nil {α : Type} (l : List α) (d : α) :
    l = [] ∨ l.getLastD d ∈ l := by
  induction l generalizing d with
  | nil => exact Or.inl rfl
  | cons a t ih =>
    right
    rw [List.getLastD_cons]
    rcases ih a with h | h
    · subst h; simp
    · exact List.mem_cons_of_mem a h

theorem le_getLastD_of_sorted (l : List ℤ) (d : ℤ)
    (hs : List.Sorted (fun a b : ℤ => a ≤ b) l) :
    ∀ z ∈ l, z ≤ l.getLastD d := by
  induction l generalizing d with
  | nil => intro z hz; cases hz
  | cons a t ih =>
    rw [List.sorted_cons] at hs
    intro z hz
    rw [List.getLastD_cons]
    rcases List.mem_cons.mp hz with h | h
    · subst h
      rcases getLastD_mem_or_nil t z with ht | ht
      · subst ht; simp
      · exact hs.1 _ ht
    · exact ih a hs.2 z h

theorem head?_eq_of_min (l : List ℤ) (a : ℤ)
    (hs : List.Sorted (fun a b : ℤ => a ≤ b) l) (ha : a ∈ l)
    (hmin : ∀ z ∈ l, a ≤ z) : l.head? = some a := by
  cases l with
  | nil => cases ha
  | cons h t =>
    rw [List.sorted_cons] at hs
    rcases List.mem_cons.mp ha with hh | hh
    · simp [hh]
    · have h1 : h ≤ a := hs.1 a hh
      have h2 : a ≤ h := hmin h (List.mem_cons_self h t)
      simp [le_antisymm h2 h1]

theorem sorted_lt_of_le_nodup (l : List ℤ)
    (hs : List.Sorted (fun a b : ℤ => a ≤ b) l) (hn : l.Nodup) :
    List.Sorted (fun a b : ℤ => a < b) l := by
  have := List.Pairwise.and hs hn
  exact this.imp fun h => lt_of_le_of_ne h.1 h.2

theorem sorted_le_of_lt (l : List ℤ)
    (hs : List.Sorted (fun a b : ℤ => a < b) l) :
    List.Sorted (fun a b : ℤ => a ≤ b) l :=
  hs.imp fun h => le_of_lt h

/-! Grid loop lemmas. -/

theorem buildGridAux_head? (xl delta : ℤ) :
    ∀ (n : ℕ) (cur : ℤ), (buildGridAux xl delta n cur).head? = some cur := by
  intro n cur
  cases n with
  | zero => rfl
  | succ n =>
    rw [buildGridAux]
    by_cases h : cur + delta ≤ xl <;> simp [h]

theorem buildGridAux_lower (xl delta : ℤ) (hd : 0 < delta) :
    ∀ (n : ℕ) (cur : ℤ), ∀ z ∈ buildGridAux xl delta n cur, cur ≤ z := by
  intro n
  induction n with
  | zero =>
    intro cur z hz
    rcases List.mem_singleton.mp hz with rfl
    exact le_refl _
  | succ n ih =>
    intro cur z hz
    rw [buildGridAux] at hz
    by_cases h : cur + delta ≤ xl
    · rw [if_pos h] at hz
      rcases List.mem_cons.mp hz with rfl | hz
      · exact le_refl _
      · exact le_trans (by omega) (ih (cur + delta) z hz)
    · rw [if_neg h] at hz
      rcases List.mem_singleton.mp hz with rfl
      exact le_refl _

theorem buildGridAux_sorted (xl delta : ℤ) (hd : 0 < delta) :
    ∀ (n : ℕ) (cur : ℤ),
      List.Sorted (fun a b : ℤ => a < b) (buildGridAux xl delta n cur) := by
  intro n
  induction n with
  | zero => intro cur; simp [buildGridAux, List.Sorted]
  | succ n ih =>
    intro cur
    rw [buildGridAux]
    by_cases h : cur + delta ≤ xl
    · rw [if_pos h, List.sorted_cons]
      refine ⟨fun b hb => ?_, ih (cur + delta)⟩
      have := buildGridAux_lower xl delta hd n (cur + delta) b hb
      omega
    · rw [if_neg h]; simp [List.Sorted]

theorem buildGridAux_le (xl delta : ℤ) :
    ∀ (n : ℕ) (cur : ℤ), cur ≤ xl →
      ∀ z ∈ buildGridAux xl delta n cur, z ≤ xl := by
  intro n
  induction n with
  | zero =>
    intro cur hc z hz
    rcases List.mem_singleton.mp hz with rfl
    exact hc
  | succ n ih =>
    intro cur hc z hz
    rw [buildGridAux] at hz
    by_cases h : cur + delta ≤ xl
    · rw [if_pos h] at hz
      rcases List.mem_cons.mp hz with rfl | hz
      · exact hc
      · exact ih (cur + delta) h z hz
    · rw [if_neg h] at hz
      rcases List.mem_singleton.mp hz with rfl
      exact hc

/-! Linear interpolant lemmas. -/

theorem lerp_interpolates :
    ∀ (pts : List (ℤ × ℚ)),
      List.Sorted (fun p q : ℤ × ℚ => p.1 < q.1) pts →
      ∀ p ∈ pts, lerp pts p.1 = p.2 := by
  intro pts
  induction pts with
  | nil => intro _ p hp; cases hp
  | cons a rest ih =>
    intro hs p hp
    cases rest with
    | nil =>
      rcases List.mem_singleton.mp hp with rfl
      rfl
    | cons b rest2 =>
      rw [List.sorted_cons] at hs
      have hab : a.1 < b.1 := hs.1 b (List.mem_cons_self b rest2)
      rcases List.mem_cons.mp hp with rfl | hp2
      · rw [lerp, if_pos (le_of_lt hab), lerpVal]
        simp
      · rcases List.mem_cons.mp hp2 with rfl | hp3
        · rw [lerp, if_pos (le_refl _), lerpVal]
          have hne : ((p.1 : ℚ) - (a.1 : ℚ)) ≠ 0 := by
            have hc : (a.1 : ℚ) < (p.1 : ℚ) := by exact_mod_cast hab
            linarith
          push_cast
          field_simp
        · have hbp : b.1 < p.1 := (List.sorted_cons.mp hs.2).1 p hp3
          rw [lerp, if_neg (by omega)]
          exact ih hs.2 p hp2

theorem interp1dK_interpolating (k : ℕ) : FitInterpolating (interp1dK k) := by
  intro pts f hs hok p hp
  rw [interp1dK] at hok
  by_cases h : pts.length < 2 ∨ pts.length < k + 1
  · rw [if_pos h] at hok; cases hok
  · rw [if_neg h] at hok
    cases hok
    exact lerp_interpolates pts hs p hp

theorem interp1dOne_ok (pts : List (ℤ × ℚ)) (h : 2 ≤ pts.length) :
    interp1dK 1 pts = Except.ok (lerp pts) := by
  rw [interp1dK, if_neg (by omega)]

/-! Per-interval loop lemmas. -/

theorem intervalStep_of_error (F : List (ℤ × ℚ) → Except Unit (ℤ → ℚ))
    (xi : List ℤ) (s : InterpState) (t : ℤ × ℤ) (e : Unit)
    (h : F (intervalPts s.x_vals s.y_vals t) = Except.error e) :
    intervalStep F xi s t = s := by
  simp only [intervalStep, h]

theorem intervalStep_of_ok (F : List (ℤ × ℚ) → Except Unit (ℤ → ℚ))
    (xi : List ℤ) (s : InterpState) (t : ℤ × ℤ) (f : ℤ → ℚ)
    (h : F (intervalPts s.x_vals s.y_vals t) = Except.ok f) :
    intervalStep F xi s t =
      { s with
        y_interp := List.zipWith
          (fun x y => if t.1 ≤ x ∧ x ≤ t.2 then f x else y) xi s.y_interp
        valid_inds := List.zipWith
          (fun x b => b || decide (t.1 ≤ x ∧ x ≤ t.2)) s.x_vals s.valid_inds
        valid_inds_interp := List.zipWith
          (fun x b => b || decide (t.1 ≤ x ∧ x ≤ t.2)) xi
          s.valid_inds_interp } := by
  simp only [intervalStep, h]

theorem intervalStep_fields (F : List (ℤ × ℚ) → Except Unit (ℤ → ℚ))
    (xi : List ℤ) (s : InterpState) (t : ℤ × ℤ) :
    (intervalStep F xi s t).x_vals = s.x_vals ∧
    (intervalStep F xi s t).y_vals = s.y_vals := by
  cases hFt : F (intervalPts s.x_vals s.y_vals t) with
  | error e => rw [intervalStep_of_error F xi s t e hFt]; exact ⟨rfl, rfl⟩
  | ok f => rw [intervalStep_of_ok F xi s t f hFt]; exact ⟨rfl, rfl⟩

theorem foldl_intervalStep_fields (F : List (ℤ × ℚ) → Except Unit (ℤ → ℚ))
    (xi : List ℤ) :
    ∀ (ts : List (ℤ × ℤ)) (s : InterpState),
      (ts.foldl (intervalStep F xi) s).x_vals = s.x_vals ∧
      (ts.foldl (intervalStep F xi) s).y_vals = s.y_vals := by
  intro ts
  induction ts with
  | nil => intro s; exact ⟨rfl, rfl⟩
  | cons t ts ih =>
    intro s
    rw [List.foldl_cons]
    rcases ih (intervalStep F xi s t) with ⟨hx, hy⟩
    rcases intervalStep_fields F xi s t with ⟨hx2, hy2⟩
    exact ⟨hx.trans hx2, hy.trans hy2⟩

theorem intervalStep_lengths (F : List (ℤ × ℚ) → Except Unit (ℤ → ℚ))
    (xi : List ℤ) (s : InterpState) (t : ℤ × ℤ)
    (hy : s.y_interp.length = xi.length)
    (hv : s.valid_inds_interp.length = xi.length) :
    (intervalStep F xi s t).y_interp.length = xi.length ∧
    (intervalStep F xi s t).valid_inds_interp.length = xi.length := by
  cases hFt : F (intervalPts s.x_vals s.y_vals t) with
  | error e => rw [intervalStep_of_error F xi s t e hFt]; exact ⟨hy, hv⟩
  | ok f =>
    rw [intervalStep_of_ok F xi s t f hFt]
    constructor <;> simp [List.length_zipWith, hy, hv]

theorem foldl_intervalStep_lengths (F : List (ℤ × ℚ) → Except Unit (ℤ → ℚ))
    (xi : List ℤ) :
    ∀ (ts : List (ℤ × ℤ)) (s : InterpState),
      s.y_interp.length = xi.length →
      s.valid_inds_interp.length = xi.length →
      (ts.foldl (intervalStep F xi) s).y_interp.length = xi.length ∧
      (ts.foldl (intervalStep F xi) s).valid_inds_interp.length = xi.length := by
  intro ts
  induction ts with
  | nil => intro s hy hv; exact ⟨hy, hv⟩
  | cons t ts ih =>
    intro s hy hv
    rw [List.foldl_cons]
    rcases intervalStep_lengths F xi s t hy hv with ⟨hy2, hv2⟩
    exact ih (intervalStep F xi s t) hy2 hv2

/-- Invariant used for claim C2: at any point of the per-interval loop of
`interpolate`, every `y_interp` position whose grid timestamp equals an
original timestamp and whose coverage bit is on carries exactly the
original value — because every successful fit is evaluated on a point set
that contains that original sample, and the fit interpolates exactly. -/
theorem foldl_intervalStep_originals (F : List (ℤ × ℚ) → Except Unit (ℤ → ℚ))
    (hF : FitInterpolating F) (x : List ℤ) (y : List ℚ) (xi : List ℤ)
    (hs : List.Sorted (fun a b : ℤ => a < b) x) (hlen : x.length = y.length) :
    ∀ (ts : List (ℤ × ℤ)) (s : InterpState),
      s.x_vals = x → s.y_vals = y →
      s.y_interp.length = xi.length →
      s.valid_inds_interp.length = xi.length →
      (∀ i j, i < xi.length → j < x.length → xi.getD i 0 = x.getD j 0 →
        s.valid_inds_interp.getD i false = true →
        s.y_interp.getD i 0 = y.getD j 0) →
      ∀ i j, i < xi.length → j < x.length → xi.getD i 0 = x.getD j 0 →
        (ts.foldl (intervalStep F xi) s).valid_inds_interp.getD i false = true →
        (ts.foldl (intervalStep F xi) s).y_interp.getD i 0 = y.getD j 0 := by
  intro ts
  induction ts with
  | nil =>
    intro s _ _ _ _ hinv i j hi hj hij hval
    exact hinv i j hi hj hij hval
  | cons t ts ih =>
    intro s hx hy hylen hvlen hinv i j hi hj hij hval
    rw [List.foldl_cons] at hval ⊢
    have hfields := intervalStep_fields F xi s t
    have hlens := intervalStep_lengths F xi s t hylen hvlen
    refine ih (intervalStep F xi s t) (hfields.1.trans hx) (hfields.2.trans hy)
      hlens.1 hlens.2 ?_ i j hi hj hij hval
    intro i2 j2 hi2 hj2 hij2 hval2
    cases hFt : F (intervalPts s.x_vals s.y_vals t) with
    | error e =>
      rw [intervalStep_of_error F xi s t e hFt] at hval2 ⊢
      exact hinv i2 j2 hi2 hj2 hij2 hval2
    | ok f =>
      rw [intervalStep_of_ok F xi s t f hFt] at hval2 ⊢
      simp only at hval2 ⊢
      rw [getD_zipWith_mask xi s.valid_inds_interp
        (fun x => decide (t.1 ≤ x ∧ x ≤ t.2)) i2 hi2 hvlen] at hval2
      rw [getD_zipWith_write xi s.y_interp
        (fun x => t.1 ≤ x ∧ x ≤ t.2) f i2 hi2 hylen]
      by_cases hin : t.1 ≤ xi.getD i2 0 ∧ xi.getD i2 0 ≤ t.2
      · rw [if_pos hin, hij2]
        have hpt : (x.getD j2 0, y.getD j2 0) ∈ intervalPts x y t := by
          refine mem_intervalPts x y t j2 hj2 hlen ?_ ?_
          · rw [← hij2]; exact hin.1
          · rw [← hij2]; exact hin.2
        have hFt2 : F (intervalPts x y t) = Except.ok f := by
          rw [← hx, ← hy]; exact hFt
        exact hF (intervalPts x y t) f (intervalPts_sorted x y t hs) hFt2 _ hpt
      · rw [if_neg hin]
        refine hinv i2 j2 hi2 hj2 hij2 ?_
        rw [decide_eq_false hin, Bool.or_false] at hval2
        exact hval2

/-- Characterization of the coverage mask after the per-interval loop: a
grid position is covered exactly when some interval of the processed list
contains its timestamp and the fit on that interval's points succeeded. -/
theorem foldl_intervalStep_valid_iff (F : List (ℤ × ℚ) → Except Unit (ℤ → ℚ))
    (x : List ℤ) (y : List ℚ) (xi : List ℤ) (i : ℕ) (hi : i < xi.length) :
    ∀ (ts : List (ℤ × ℤ)) (s : InterpState),
      s.x_vals = x → s.y_vals = y →
      s.valid_inds_interp.length = xi.length →
      s.y_interp.length = xi.length →
      ((ts.foldl (intervalStep F xi) s).valid_inds_interp.getD i false = true ↔
        s.valid_inds_interp.getD i false = true ∨
        ∃ t ∈ ts, (t.1 ≤ xi.getD i 0 ∧ xi.getD i 0 ≤ t.2) ∧
          ∃ f, F (intervalPts x y t) = Except.ok f) := by
  intro ts
  induction ts with
  | nil =>
    intro s _ _ _ _
    simp
  | cons t ts ih =>
    intro s hx hy hvlen hylen
    rw [List.foldl_cons]
    have hfields := intervalStep_fields F xi s t
    have hlens := intervalStep_lengths F xi s t hylen hvlen
    rw [ih (intervalStep F xi s t) (hfields.1.trans hx) (hfields.2.trans hy)
      hlens.2 hlens.1]
    cases hFt : F (intervalPts s.x_vals s.y_vals t) with
    | error e =>
      rw [intervalStep_of_error F xi s t e hFt]
      constructor
      · rintro (h | ⟨t2, ht2, h2⟩)
        · exact Or.inl h
        · exact Or.inr ⟨t2, List.mem_cons_of_mem t ht2, h2⟩
      · rintro (h | ⟨t2, ht2, hrange, f, hf⟩)
        · exact Or.inl h
        · rcases List.mem_cons.mp ht2 with rfl | ht3
          · rw [hx, hy] at hFt
            rw [hFt] at hf
            simp at hf
          · exact Or.inr ⟨t2, ht3, hrange, f, hf⟩
    | ok f =>
      rw [intervalStep_of_ok F xi s t f hFt]
      simp only []
      rw [getD_zipWith_mask xi s.valid_inds_interp
        (fun x => decide (t.1 ≤ x ∧ x ≤ t.2)) i hi hvlen]
      constructor
      · rintro (h | ⟨t2, ht2, hrange, f2, hf2⟩)
        · rcases Bool.or_eq_true_iff.mp h with h2 | h2
          · exact Or.inl h2
          · refine Or.inr ⟨t, List.mem_cons_self t ts, of_decide_eq_true h2,
              f, ?_⟩
            rw [← hx, ← hy]; exact hFt
        · exact Or.inr ⟨t2, List.mem_cons_of_mem t ht2, hrange, f2, hf2⟩
      · rintro (h | ⟨t2, ht2, hrange, f2, hf2⟩)
        · exact Or.inl (Bool.or_eq_true_iff.mpr (Or.inl h))
        · rcases List.mem_cons.mp ht2 with rfl | ht3
          · exact Or.inl (Bool.or_eq_true_iff.mpr
              (Or.inr (decide_eq_true hrange)))
          · exact Or.inr ⟨t2, ht3, hrange, f2, hf2⟩

/-! Lemmas about the segmentation walk. -/

/-- Invariant of the segmentation walk: along `identifyAux` the accumulated
intervals are well-formed (`start ≤ end`), their ends lie strictly before
the current position, the optional open start is bounded by the current
position and past every accumulated end, and the intervals are pairwise
strictly separated. -/
theorem identifyAux_invariant (m : ℤ) :
    ∀ (rest : List ℤ) (prev : ℤ) (start : Option ℤ) (acc : List (ℤ × ℤ)),
      List.Sorted (fun a b : ℤ => a < b) (prev :: rest) →
      (∀ p ∈ acc, p.1 ≤ p.2) →
      (∀ p ∈ acc, p.2 < prev) →
      (∀ s, start = some s → s ≤ prev ∧ ∀ p ∈ acc, p.2 < s) →
      List.Pairwise (fun a b : ℤ × ℤ => a.2 < b.1) acc →
      (∀ p ∈ (identifyAux m prev rest start acc).2, p.1 ≤ p.2) ∧
      List.Pairwise (fun a b : ℤ × ℤ => a.2 < b.1)
        (identifyAux m prev rest start acc).2 := by
  intro rest
  induction rest with
  | nil =>
    intro prev start acc _ hwf _ _ hpw
    exact ⟨hwf, hpw⟩
  | cons t ts ih =>
    intro prev start acc hsort hwf hend hstart hpw
    rw [List.sorted_cons] at hsort
    have hpt : prev < t := hsort.1 t (List.mem_cons_self t ts)
    rw [identifyAux.eq_def]
    simp only
    by_cases hgap : t - prev ≤ m
    · rw [if_pos hgap]
      cases start with
      | none =>
        exact ih t (some prev) acc hsort.2 hwf
          (fun p hp => lt_trans (hend p hp) hpt)
          (fun s hs => by cases hs; exact ⟨le_of_lt hpt, hend⟩) hpw
      | some s =>
        rcases hstart s rfl with ⟨hsp, hse⟩
        exact ih t (some s) acc hsort.2 hwf
          (fun p hp => lt_trans (hend p hp) hpt)
          (fun s2 hs2 => by cases hs2; exact ⟨le_trans hsp (le_of_lt hpt), hse⟩)
          hpw
    · rw [if_neg hgap]
      cases start with
      | none =>
        exact ih t none acc hsort.2 hwf
          (fun p hp => lt_trans (hend p hp) hpt)
          (fun s hs => by cases hs) hpw
      | some s =>
        rcases hstart s rfl with ⟨hsp, hse⟩
        refine ih t none (acc ++ [(s, prev)]) hsort.2 ?_ ?_
          (fun s2 hs2 => by cases hs2) ?_
        · intro p hp
          rcases List.mem_append.mp hp with hp2 | hp2
          · exact hwf p hp2
          · rcases List.mem_singleton.mp hp2 with rfl
            exact hsp
        · intro p hp
          rcases List.mem_append.mp hp with hp2 | hp2
          · exact lt_trans (hend p hp2) hpt
          · rcases List.mem_singleton.mp hp2 with rfl
            exact hpt
        · rw [List.pairwise_append]
          refine ⟨hpw, List.pairwise_singleton _ _, ?_⟩
          intro a ha b hb
          rcases List.mem_singleton.mp hb with rfl
          exact hse a ha

/-- The result intervals of `identifyTimeIntervals` with a gap threshold
are well-formed and pairwise strictly separated (hence disjoint). -/
theorem identify_disjoint (times : List ℤ) (m : ℤ)
    (hs : List.Sorted (fun a b : ℤ => a < b) times) :
    (∀ p ∈ identifyTimeIntervals times (some m), p.1 ≤ p.2) ∧
    List.Pairwise (fun a b : ℤ × ℤ => a.2 < b.1)
      (identifyTimeIntervals times (some m)) := by
  cases times with
  | nil => simp [identifyTimeIntervals]
  | cons t0 ts =>
    rw [identifyTimeIntervals]
    by_cases hsp : (identifyAux m t0 ts none []).1 = some t0
    · rw [if_pos hsp]
      constructor
      · intro p hp
        rcases List.mem_singleton.mp hp with rfl
        exact le_getLastD_of_sorted (t0 :: ts) 0 (sorted_le_of_lt _ hs) t0
          (List.mem_cons_self t0 ts)
      · exact List.pairwise_singleton _ _
    · rw [if_neg hsp]
      exact identifyAux_invariant m ts t0 none [] hs (fun p hp => by cases hp)
        (fun p hp => by cases hp) (fun s hs2 => by cases hs2) List.Pairwise.nil

/-- When every consecutive gap along the walk stays within the threshold,
the walk never closes the open run: it ends with the start it was given
and appends nothing. -/
theorem identifyAux_keeps_start (m : ℤ) :
    ∀ (rest : List ℤ) (prev s0 : ℤ) (acc : List (ℤ × ℤ)),
      List.Chain' (fun a b : ℤ => b - a ≤ m) (prev :: rest) →
      identifyAux m prev rest (some s0) acc = (some s0, acc) := by
  intro rest
  induction rest with
  | nil => intro prev s0 acc _; rfl
  | cons t ts ih =>
    intro prev s0 acc hchain
    rw [List.chain'_cons] at hchain
    rw [identifyAux.eq_def]
    simp only
    rw [if_pos hchain.1]
    exact ih t s0 acc hchain.2

/-- A sorted list confined to an interval of width at most `m` has all its
consecutive gaps at most `m`. -/
theorem chain_of_span (m : ℤ) :
    ∀ (l : List ℤ), List.Sorted (fun a b : ℤ => a ≤ b) l →
      ∀ lo hi : ℤ, (∀ z ∈ l, lo ≤ z ∧ z ≤ hi) → hi - lo ≤ m →
      List.Chain' (fun a b : ℤ => b - a ≤ m) l := by
  intro l
  induction l with
  | nil => intro _ lo hi _ _; exact List.chain'_nil
  | cons a l2 ih =>
    intro hs lo hi hb hm
    cases l2 with
    | nil => simp
    | cons b l3 =>
      rw [List.sorted_cons] at hs
      rw [List.chain'_cons]
      constructor
      · have h1 := hb a (List.mem_cons_self a (b :: l3))
        have h2 := hb b (List.mem_cons_of_mem a (List.mem_cons_self b l3))
        omega
      · exact ih hs.2 lo hi (fun z hz => hb z (List.mem_cons_of_mem a hz)) hm

theorem getD_replicate_bool (n i : ℕ) :
    (List.replicate n false).getD i false = false := by
  induction n generalizing i with
  | zero => rfl
  | succ n ih =>
    cases i with
    | zero => rfl
    | succ i => exact ih i

theorem getD_mem_of_lt (l : List ℤ) (i : ℕ) (h : i < l.length) :
    l.getD i 0 ∈ l := by
  rw [List.getD_eq_getElem _ _ h]
  exact List.getElem_mem h

/-- Forward evaluation of `interpolate` for a series of length at least 2:
the global fit construction succeeds and the call returns the grid, the
gap-filled values and the provenance indices. -/
theorem interpolate_eq_ok (F : List (ℤ × ℚ) → Except Unit (ℤ → ℚ))
    (x : List ℤ) (y : List ℚ) (δ : ℤ) (ko : Bool) (mi : Option ℤ)
    (h2 : 2 ≤ x.length) (hlen : x.length = y.length) :
    interpolate F x y δ ko mi = Except.ok (gridFull x δ ko,
      gapFill (lerp (x.zip y)) (gridFull x δ ko)
        (runLoop F x y δ ko mi).valid_inds_interp
        (runLoop F x y δ ko mi).y_interp,
      indsInterp (gridFull x δ ko) x) := by
  cases x with
  | nil => simp at h2
  | cons x0 rest =>
    have hx : (runLoop F (x0 :: rest) y δ ko mi).x_vals = x0 :: rest :=
      (foldl_intervalStep_fields F _ _ _).1
    have hy : (runLoop F (x0 :: rest) y δ ko mi).y_vals = y :=
      (foldl_intervalStep_fields F _ _ _).2
    have hzlen : 2 ≤ ((x0 :: rest).zip y).length := by
      rw [List.length_zip, ← hlen]
      omega
    simp only [interpolate]
    rw [hx, hy, interp1dOne_ok _ hzlen]

/-- Inversion of a successful `interpolate` call: the series had at least
2 samples, and the result is the grid, the gap-filled values and the
provenance indices. -/
theorem interpolate_ok_inv (F : List (ℤ × ℚ) → Except Unit (ℤ → ℚ))
    (x : List ℤ) (y : List ℚ) (δ : ℤ) (ko : Bool) (mi : Option ℤ)
    (r : List ℤ × List ℚ × List ℕ)
    (hok : interpolate F x y δ ko mi = Except.ok r) :
    2 ≤ (x.zip y).length ∧
    r = (gridFull x δ ko,
      gapFill (lerp (x.zip y)) (gridFull x δ ko)
        (runLoop F x y δ ko mi).valid_inds_interp
        (runLoop F x y δ ko mi).y_interp,
      indsInterp (gridFull x δ ko) x) := by
  cases x with
  | nil => simp [interpolate] at hok
  | cons x0 rest =>
    have hx : (runLoop F (x0 :: rest) y δ ko mi).x_vals = x0 :: rest :=
      (foldl_intervalStep_fields F _ _ _).1
    have hy : (runLoop F (x0 :: rest) y δ ko mi).y_vals = y :=
      (foldl_intervalStep_fields F _ _ _).2
    simp only [interpolate] at hok
    rw [hx, hy] at hok
    cases hfit : interp1dK 1 ((x0 :: rest).zip y) with
    | error e => rw [hfit] at hok; simp at hok
    | ok g =>
      rw [hfit] at hok
      rw [interp1dK] at hfit
      by_cases hlen2 : ((x0 :: rest).zip y).length < 2 ∨
          ((x0 :: rest).zip y).length < 1 + 1
      · rw [if_pos hlen2] at hfit
        simp at hfit
      · rw [if_neg hlen2] at hfit
        injection hfit with hg
        have hok2 : (Except.ok (gridFull (x0 :: rest) δ ko,
            gapFill g (gridFull (x0 :: rest) δ ko)
              (runLoop F (x0 :: rest) y δ ko mi).valid_inds_interp
              (runLoop F (x0 :: rest) y δ ko mi).y_interp,
            indsInterp (gridFull (x0 :: rest) δ ko) (x0 :: rest)) :
            Except InterpError (List ℤ × List ℚ × List ℕ)) =
            Except.ok r := hok
        injection hok2 with h3
        refine ⟨by omega, ?_⟩
        rw [← h3, hg]


/-! Claim theorems.  Each theorem below settles one claim of the
specification review; the doc comment names the claim. -/

/-- C1 (evidence of the code bug): on the spec's concrete scenario —
samples at minutes 0, 1, 2, 10, 11, 12 with a maximum gap of 5 minutes —
`identifyTimeIntervals` returns only the interval [0, 2]: the final open
run [10, 12] is silently dropped, because the source closes an open run
only on a gap-exceeded transition or through the `start == times[0]`
special case, never unconditionally at end-of-input.  The claim (and the
function's own docstring, and spec sections 4.1 and 8) require
[[0, 2], [10, 12]]. -/
theorem c1_code_drops_trailing_run :
    identifyTimeIntervals [0, 1, 2, 10, 11, 12] (some 5) = [(0, 2)] ∧
    identifyTimeIntervals [0, 1, 2, 10, 11, 12] (some 5) ≠
      [(0, 2), (10, 12)] := by
  constructor <;> decide

/-- C7 counterexample: for the singleton list [0] and max gap 1 (which is
larger than the span 0), `identifyTimeIntervals` returns the empty list,
not the single interval [0, 0] the claim requires: the walk never runs,
`start` stays `None`, and `None == times[0]` is false. -/
theorem c7_counterexample :
    identifyTimeIntervals [0] (some 1) = [] ∧
    identifyTimeIntervals [0] (some 1) ≠ [((0 : ℤ), (0 : ℤ))] := by
  constructor <;> decide

/-- C7 (amended): with `max_gap = None`, any non-empty sorted list yields
exactly the one interval [times[0], times[-1]]; with a gap threshold at
least the whole span, the same holds provided the list has at least two
elements (a singleton list yields the empty interval list instead, as the
counterexample shows). -/
theorem c7_single_interval (times : List ℤ) (m : ℤ) :
    (times ≠ [] → identifyTimeIntervals times none =
      [(times.headI, times.getLastD 0)]) ∧
    (2 ≤ times.length → List.Sorted (fun a b : ℤ => a ≤ b) times →
      times.getLastD 0 - times.headI ≤ m →
      identifyTimeIntervals times (some m) =
        [(times.headI, times.getLastD 0)]) := by
  constructor
  · intro hne
    cases times with
    | nil => exact absurd rfl hne
    | cons a t => rfl
  · intro hlen hs hspan
    cases times with
    | nil => simp at hlen
    | cons t0 rest =>
      cases rest with
      | nil => simp at hlen
      | cons t1 ts =>
        have hbounds : ∀ z ∈ t0 :: t1 :: ts,
            (t0 :: t1 :: ts).headI ≤ z ∧ z ≤ (t0 :: t1 :: ts).getLastD 0 :=
          fun z hz => ⟨headI_le_of_sorted _ hs z hz,
            le_getLastD_of_sorted _ 0 hs z hz⟩
        have hchain : List.Chain' (fun a b : ℤ => b - a ≤ m)
            (t0 :: t1 :: ts) :=
          chain_of_span m _ hs _ _ hbounds hspan
        rw [List.chain'_cons] at hchain
        have haux : identifyAux m t0 (t1 :: ts) none [] = (some t0, []) := by
          rw [identifyAux.eq_def]
          simp only
          rw [if_pos hchain.1]
          exact identifyAux_keeps_start m ts t1 t0 [] hchain.2
        have hred : identifyTimeIntervals (t0 :: t1 :: ts) (some m) =
            (if (identifyAux m t0 (t1 :: ts) none []).1 = some t0
              then [(t0, (t0 :: t1 :: ts).getLastD 0)]
              else (identifyAux m t0 (t1 :: ts) none []).2) := rfl
        rw [hred, haux]
        simp

/-- C7 witness: a sorted two-element list with a large threshold yields
the single spanning interval, both with and without the threshold. -/
theorem c7_witness :
    identifyTimeIntervals [0, 5] none = [(0, 5)] ∧
    identifyTimeIntervals [0, 5] (some 10) = [(0, 5)] :=
  ⟨(c7_single_interval [0, 5] 10).1 (by decide),
   (c7_single_interval [0, 5] 10).2 (by decide) (by decide) (by decide)⟩

/-- C4 counterexample: on an empty input `interpolate` reproduces Python's
`IndexError` from `x_vals[0]` — not the `InvalidConfiguration` error the
claim describes, which no code path signals. -/
theorem c4_counterexample :
    interpolate (interp1dK 1) [] [] 1 true none =
      Except.error InterpError.indexError ∧
    (Except.error InterpError.indexError :
        Except InterpError (List ℤ × List ℚ × List ℕ)) ≠
      Except.error InterpError.invalidConfiguration := by
  constructor
  · rfl
  · decide

/-- C4 (amended): the code contains no InvalidConfiguration check at all.
With a non-positive step the grid `while` loop of lines 192-194 never
terminates — every amount of fuel is consumed, each unit producing one
more iteration — and an empty timestamp list raises an IndexError at
`x_vals[0]` (line 190). -/
theorem c4_no_invalid_configuration :
    (∀ (delta xl : ℤ), delta ≤ 0 → ∀ (n : ℕ) (cur : ℤ), cur ≤ xl →
      (buildGridAux xl delta n cur).length = n + 1) ∧
    (∀ (F : List (ℤ × ℚ) → Except Unit (ℤ → ℚ)) (y : List ℚ) (delta : ℤ)
        (ko : Bool) (mi : Option ℤ),
      interpolate F [] y delta ko mi = Except.error InterpError.indexError) := by
  constructor
  · intro delta xl hd n
    induction n with
    | zero => intro cur hc; rfl
    | succ n ih =>
      intro cur hc
      rw [buildGridAux, if_pos (show cur + delta ≤ xl by omega)]
      simp [ih (cur + delta) (by omega)]
  · intro F y delta ko mi
    rfl

/-- C4 witness: five units of fuel yield six loop iterations for step -1,
and the empty-input call returns the IndexError. -/
theorem c4_witness :
    (buildGridAux 10 (-1) 5 0).length = 5 + 1 ∧
    interpolate (interp1dK 1) [] [] 1 true none =
      Except.error InterpError.indexError :=
  ⟨c4_no_invalid_configuration.1 (-1) 10 (by decide) 5 0 (by decide),
   c4_no_invalid_configuration.2 (interp1dK 1) [] 1 true none⟩

/-- C6 counterexample: on the singleton series (timestamp 0, value 5) with
`keep_old = true`, `interpolate` raises the ValueError of the mandatory
global linear fit (line 247 requires at least 2 points and is outside any
`try`), instead of returning the single Original point the claim
describes. -/
theorem c6_counterexample :
    interpolate (interp1dK 1) [0] [5] 1 true none =
      Except.error InterpError.valueError ∧
    interpolate (interp1dK 1) [0] [5] 1 true none ≠
      Except.ok ([0], [5], ([] : List ℕ)) := by
  constructor <;> decide

/-- C6 (amended): for every fitting backend and configuration, a series of
length exactly 1 makes `interpolate` raise the global linear fit's
ValueError — the fallback fit is attempted unconditionally and fails on
fewer than 2 points, matching spec section 7's fatal escalation rather
than section 8's degenerate-case output. -/
theorem c6_singleton_raises (F : List (ℤ × ℚ) → Except Unit (ℤ → ℚ))
    (t : ℤ) (v : ℚ) (δ : ℤ) (ko : Bool) (mi : Option ℤ) :
    interpolate F [t] [v] δ ko mi = Except.error InterpError.valueError := by
  have hx : (runLoop F [t] [v] δ ko mi).x_vals = [t] :=
    (foldl_intervalStep_fields F _ _ _).1
  have hy : (runLoop F [t] [v] δ ko mi).y_vals = [v] :=
    (foldl_intervalStep_fields F _ _ _).2
  simp only [interpolate]
  rw [hx, hy]
  rfl

/-- C9: the per-interval loop of `interpolate` — the only part of the
pipeline that performs in-place updates — leaves the caller's `x_vals`
and `y_vals` exactly as they were: every assignment in the source targets
the freshly allocated `y_interp` array or the two coverage masks, which
the state embedding makes visible field by field.  `identifyTimeIntervals`
performs no assignment at all and is embedded as a pure function. -/
theorem c9_inputs_unchanged (F : List (ℤ × ℚ) → Except Unit (ℤ → ℚ))
    (x : List ℤ) (y : List ℚ) (δ : ℤ) (ko : Bool) (mi : Option ℤ) :
    (runLoop F x y δ ko mi).x_vals = x ∧
    (runLoop F x y δ ko mi).y_vals = y :=
  ⟨(foldl_intervalStep_fields F _ _ _).1,
   (foldl_intervalStep_fields F _ _ _).2⟩

/-- C10: on a non-datetime (plain numeric) axis, any non-empty input with
`max_interval` set makes `interpolate` fail on the assertion of line 256
(`max_interval not yet implemented for x-axes of types other than
datetime`), before any other work of the numeric branch. -/
theorem c10_numeric_axis_asserts (F : List (ℚ × ℚ) → Except Unit (ℚ → ℚ))
    (x0 : ℚ) (rest : List ℚ) (y : List ℚ) (δ : ℚ) (ko : Bool) (m : ℤ) :
    interpolateNumeric F (x0 :: rest) y δ ko (some m) =
      Except.error InterpError.assertionError := rfl

/-- C3: for a series of length at least 2 (and parallel value list), the
call returns normally; the value list has exactly the grid's length, and
every grid position whose coverage bit is off receives the global linear
fit's value (`interp1d(..., kind=1)`, i.e. the piecewise-linear
interpolant through all samples). -/
theorem c3_gap_fill_total (F : List (ℤ × ℚ) → Except Unit (ℤ → ℚ))
    (x : List ℤ) (y : List ℚ) (δ : ℤ) (ko : Bool) (mi : Option ℤ)
    (h2 : 2 ≤ x.length) (hlen : x.length = y.length) :
    ∃ yi ii, interpolate F x y δ ko mi =
        Except.ok (gridFull x δ ko, yi, ii) ∧
      yi.length = (gridFull x δ ko).length ∧
      ∀ i, i < (gridFull x δ ko).length →
        (runLoop F x y δ ko mi).valid_inds_interp.getD i false = false →
        yi.getD i 0 = lerp (x.zip y) ((gridFull x δ ko).getD i 0) := by
  have hlens := foldl_intervalStep_lengths F (gridFull x δ ko)
    (identifyTimeIntervals x mi) (initState x y (gridFull x δ ko))
    (by simp [initState]) (by simp [initState])
  have hylen2 : (runLoop F x y δ ko mi).y_interp.length =
      (gridFull x δ ko).length := hlens.1
  have hvlen2 : (runLoop F x y δ ko mi).valid_inds_interp.length =
      (gridFull x δ ko).length := hlens.2
  refine ⟨_, _, interpolate_eq_ok F x y δ ko mi h2 hlen, ?_, ?_⟩
  · simp [gapFill, List.length_zipWith, List.length_zip, hylen2, hvlen2]
  · intro i hi hvfalse
    rw [getD_gapFill _ _ _ _ i hi hvlen2 hylen2, hvfalse]
    simp

/-- C3 witness: the two-sample series (0, 3), (2, 5) with step 1. -/
theorem c3_witness :
    ∃ yi ii, interpolate (interp1dK 1) [0, 2] [3, 5] 1 false none =
        Except.ok (gridFull [0, 2] 1 false, yi, ii) ∧
      yi.length = (gridFull [0, 2] 1 false).length ∧
      ∀ i, i < (gridFull [0, 2] 1 false).length →
        (runLoop (interp1dK 1) [0, 2] [3, 5] 1 false
          none).valid_inds_interp.getD i false = false →
        yi.getD i 0 =
          lerp ([0, 2].zip [3, 5]) ((gridFull [0, 2] 1 false).getD i 0) :=
  c3_gap_fill_total (interp1dK 1) [0, 2] [3, 5] 1 false none (by decide)
    (by decide)

/-- C5: an interval of the segmentation whose point subset makes the fit
raise (too few points for the chosen method) is skipped without aborting:
the call still returns normally (given at least 2 samples overall), and
every grid position falling inside that interval is filled by the global
linear fit — the failing interval writes nothing, and by disjointness of
the intervals no other interval covers those positions. -/
theorem c5_short_interval_skipped (F : List (ℤ × ℚ) → Except Unit (ℤ → ℚ))
    (x : List ℤ) (y : List ℚ) (δ : ℤ) (ko : Bool) (m : ℤ)
    (hs : List.Sorted (fun a b : ℤ => a < b) x) (h2 : 2 ≤ x.length)
    (hlen : x.length = y.length) (t : ℤ × ℤ)
    (ht : t ∈ identifyTimeIntervals x (some m))
    (hfail : F (intervalPts x y t) = Except.error ()) :
    ∃ yi ii, interpolate F x y δ ko (some m) =
        Except.ok (gridFull x δ ko, yi, ii) ∧
      ∀ i, i < (gridFull x δ ko).length →
        t.1 ≤ (gridFull x δ ko).getD i 0 →
        (gridFull x δ ko).getD i 0 ≤ t.2 →
        yi.getD i 0 = lerp (x.zip y) ((gridFull x δ ko).getD i 0) := by
  have hlens := foldl_intervalStep_lengths F (gridFull x δ ko)
    (identifyTimeIntervals x (some m)) (initState x y (gridFull x δ ko))
    (by simp [initState]) (by simp [initState])
  have hylen2 : (runLoop F x y δ ko (some m)).y_interp.length =
      (gridFull x δ ko).length := hlens.1
  have hvlen2 : (runLoop F x y δ ko (some m)).valid_inds_interp.length =
      (gridFull x δ ko).length := hlens.2
  refine ⟨_, _, interpolate_eq_ok F x y δ ko (some m) h2 hlen, ?_⟩
  intro i hi hin1 hin2
  have hvfalse : (runLoop F x y δ ko
      (some m)).valid_inds_interp.getD i false = false := by
    have hiff := foldl_intervalStep_valid_iff F x y (gridFull x δ ko) i hi
      (identifyTimeIntervals x (some m)) (initState x y (gridFull x δ ko))
      rfl rfl (by simp [initState]) (by simp [initState])
    cases hv : (runLoop F x y δ ko
        (some m)).valid_inds_interp.getD i false with
    | false => rfl
    | true =>
      exfalso
      rcases hiff.mp hv with hinit | ⟨t2, ht2, hrange, f2, hf2⟩
      · rw [show (initState x y (gridFull x δ ko)).valid_inds_interp =
            List.replicate (gridFull x δ ko).length false from rfl,
          getD_replicate_bool] at hinit
        cases hinit
      · rcases hrange with ⟨hr1, hr2⟩
        by_cases heq : t2 = t
        · rw [heq, hfail] at hf2
          simp at hf2
        · have hdis2 : List.Pairwise
              (fun a b : ℤ × ℤ => a.2 < b.1 ∨ b.2 < a.1)
              (identifyTimeIntervals x (some m)) :=
            (identify_disjoint x m hs).2.imp fun h => Or.inl h
          have hsym : Symmetric (fun a b : ℤ × ℤ => a.2 < b.1 ∨ b.2 < a.1) :=
            fun a b h => h.elim Or.inr Or.inl
          rcases hdis2.forall hsym ht2 ht heq with h | h <;> omega
  rw [getD_gapFill _ _ _ _ i hi hvlen2 hylen2, hvfalse]
  simp

/-- C5 witness: the series at minutes 0, 1, 10, 11 with a 3-minute gap
threshold segments into the single interval [0, 1] (the trailing run is
dropped by the source's special-casing); a cubic fit needs 4 points, so
that interval's 2-point subset fails and its grid points fall through to
the global linear fit, while the call returns normally. -/
theorem c5_witness :
    ∃ yi ii, interpolate (interp1dK 3) [0, 1, 10, 11] [2, 3, 4, 5] 5 false
        (some 3) = Except.ok (gridFull [0, 1, 10, 11] 5 false, yi, ii) ∧
      ∀ i, i < (gridFull [0, 1, 10, 11] 5 false).length →
        (0, 1).1 ≤ (gridFull [0, 1, 10, 11] 5 false).getD i 0 →
        (gridFull [0, 1, 10, 11] 5 false).getD i 0 ≤ (0, 1).2 →
        yi.getD i 0 = lerp ([0, 1, 10, 11].zip [2, 3, 4, 5])
          ((gridFull [0, 1, 10, 11] 5 false).getD i 0) :=
  c5_short_interval_skipped (interp1dK 3) [0, 1, 10, 11] [2, 3, 4, 5] 5
    false 3 (by decide) (by decide) (by decide) (0, 1) (by decide) rfl

/-- C2 counterexample: the round-trip claim is false for non-interpolating
fitting methods.  With the default-smoothing `UnivariateSpline` backend
(modelled by `univSplineLin`: its least-squares line through
(0, 0), (1, 1), (2, 0) is the constant 1/3), the series at timestamps
0, 1, 2 with `keep_old = true` and step 1 returns the grid [0, 1, 2]
with values [1/3, 1/3, 1/3] and `inds_interp = []`: the output point at
original timestamp 0 is tagged Original (index 0 is not in
`inds_interp`) yet carries the smoothed value 1/3, not the original
value 0. -/
theorem c2_counterexample :
    interpolate univSplineLin [0, 1, 2] [0, 1, 0] 1 true none =
      Except.ok ([0, 1, 2], [1/3, 1/3, 1/3], []) ∧
    (0 : ℕ) ∉ ([] : List ℕ) ∧
    [(1 : ℚ)/3, 1/3, 1/3].getD 0 0 ≠ [(0 : ℚ), 1, 0].getD 0 0 := by
  refine ⟨?_, by decide, by norm_num⟩
  norm_num [interpolate, gridFull, buildGrid, buildGridAux,
    identifyTimeIntervals, identifyAux, runLoop, initState, intervalStep,
    intervalPts, interp1dK, univSplineLin, lerp, lerpVal, gapFill,
    indsInterp, List.insertionSort, List.orderedInsert, List.dedup,
    List.pwFilter, List.range, List.range.loop, List.replicate, List.foldl,
    List.sum_cons, List.sum_nil]

/-- C2 (amended): with `keep_old = true`, on a strictly sorted series with
parallel values and an interpolating fitting backend — one whose
successful fits pass exactly through their data points, true of
`interp1d` (any order) and of the spec's `PolynomialInterpolant`
(section 4.3), but not of the default-smoothing `UnivariateSpline` or of
`BSpline` — every output position whose timestamp equals an original
timestamp is tagged Original (its index is not in `inds_interp`) and
carries exactly the original value: a covered position was last written
by a fit over a point subset containing that sample, and an uncovered
one receives the global piecewise-linear interpolant's value at a sample
point. -/
theorem c2_keep_old_round_trip (F : List (ℤ × ℚ) → Except Unit (ℤ → ℚ))
    (hF : FitInterpolating F) (x : List ℤ) (y : List ℚ) (δ : ℤ)
    (mi : Option ℤ) (hδ : 0 < δ)
    (hs : List.Sorted (fun a b : ℤ => a < b) x) (hlen : x.length = y.length)
    (xi : List ℤ) (yi : List ℚ) (ii : List ℕ)
    (hok : interpolate F x y δ true mi = Except.ok (xi, yi, ii)) :
    ∀ i j, i < xi.length → j < x.length → xi.getD i 0 = x.getD j 0 →
      i ∉ ii ∧ yi.getD i 0 = y.getD j 0 := by
  obtain ⟨hz2, hr⟩ := interpolate_ok_inv F x y δ true mi (xi, yi, ii) hok
  have hxi : xi = gridFull x δ true := congrArg Prod.fst hr
  have hyi : yi = gapFill (lerp (x.zip y)) (gridFull x δ true)
      (runLoop F x y δ true mi).valid_inds_interp
      (runLoop F x y δ true mi).y_interp := congrArg (fun p => p.2.1) hr
  have hii : ii = indsInterp (gridFull x δ true) x :=
    congrArg (fun p => p.2.2) hr
  have hlens := foldl_intervalStep_lengths F (gridFull x δ true)
    (identifyTimeIntervals x mi) (initState x y (gridFull x δ true))
    (by simp [initState]) (by simp [initState])
  have hylen2 : (runLoop F x y δ true mi).y_interp.length =
      (gridFull x δ true).length := hlens.1
  have hvlen2 : (runLoop F x y δ true mi).valid_inds_interp.length =
      (gridFull x δ true).length := hlens.2
  intro i j hi hj hij
  rw [hxi] at hi hij
  constructor
  · rw [hii, indsInterp]
    intro hmem
    rw [List.mem_filter] at hmem
    have hnot := of_decide_eq_true hmem.2
    apply hnot
    rw [hij]
    exact getD_mem_of_lt x j hj
  · rw [hyi, getD_gapFill _ _ _ _ i hi hvlen2 hylen2]
    by_cases hval :
        (runLoop F x y δ true mi).valid_inds_interp.getD i false = true
    · rw [if_pos hval]
      refine foldl_intervalStep_originals F hF x y (gridFull x δ true) hs
        hlen (identifyTimeIntervals x mi) (initState x y (gridFull x δ true))
        rfl rfl (by simp [initState]) (by simp [initState]) ?_ i j hi hj hij
        hval
      intro i2 j2 _ _ _ hval2
      rw [show (initState x y (gridFull x δ true)).valid_inds_interp =
          List.replicate (gridFull x δ true).length false from rfl,
        getD_replicate_bool] at hval2
      cases hval2
    · rw [if_neg hval, hij]
      exact lerp_interpolates (x.zip y) (zip_sorted_fst x y hs) _
        (getD_pair_mem_zip x y j hj hlen)

/-- C2 witness: the series (0, 3), (2, 3) resampled at step 1 with
`keep_old = true` yields the grid [0, 1, 2] with values [3, 3, 3] and
`inds_interp = [1]`; position 0 is an original point: it is not tagged
interpolated and keeps its value. -/
theorem c2_witness :
    0 ∉ ([1] : List ℕ) ∧
    ([(3 : ℚ), 3, 3].getD 0 0 = [(3 : ℚ), 3].getD 0 0) :=
  c2_keep_old_round_trip (interp1dK 1) (interp1dK_interpolating 1) [0, 2]
    [3, 3] 1 none (by decide) (by decide) (by decide) [0, 1, 2] [3, 3, 3]
    [1]
    (by simp [interpolate, gridFull, buildGrid, buildGridAux,
      identifyTimeIntervals, identifyAux, runLoop, initState, intervalStep,
      intervalPts, interp1dK, lerp, lerpVal, gapFill, indsInterp,
      List.insertionSort, List.orderedInsert, List.dedup, List.pwFilter,
      List.range, List.range.loop, List.replicate, List.foldl])
    0 0 (by decide) (by decide) (by decide)

/-- C8: for a non-empty strictly sorted series and a positive step, the
grid built by `interpolate` is strictly increasing (hence duplicate
free), starts at the first input timestamp, never exceeds the last input
timestamp, with `keep_old = true` contains every original timestamp
exactly once, and is exactly the first component of every successful
`interpolate` result. -/
theorem c8_grid_invariants (x : List ℤ) (δ : ℤ) (ko : Bool)
    (hne : x ≠ []) (hs : List.Sorted (fun a b : ℤ => a < b) x)
    (hδ : 0 < δ) :
    List.Sorted (fun a b : ℤ => a < b) (gridFull x δ ko) ∧
    (gridFull x δ ko).head? = some x.headI ∧
    (∀ z ∈ gridFull x δ ko, z ≤ x.getLastD 0) ∧
    (ko = true → ∀ z ∈ x, (gridFull x δ ko).count z = 1) ∧
    (∀ (F : List (ℤ × ℚ) → Except Unit (ℤ → ℚ)) (y : List ℚ)
        (mi : Option ℤ) (r : List ℤ × List ℚ × List ℕ),
      interpolate F x y δ ko mi = Except.ok r → r.1 = gridFull x δ ko) := by
  have hinterp : ∀ (F : List (ℤ × ℚ) → Except Unit (ℤ → ℚ)) (y : List ℚ)
      (mi : Option ℤ) (r : List ℤ × List ℚ × List ℕ),
      interpolate F x y δ ko mi = Except.ok r → r.1 = gridFull x δ ko := by
    intro F y mi r hok
    rcases interpolate_ok_inv F x y δ ko mi r hok with ⟨_, hr⟩
    rw [hr]
  cases x with
  | nil => exact absurd rfl hne
  | cons x0 rest =>
    have hsle : List.Sorted (fun a b : ℤ => a ≤ b) (x0 :: rest) :=
      sorted_le_of_lt _ hs
    have hx0l : x0 ≤ (x0 :: rest).getLastD 0 :=
      le_getLastD_of_sorted _ 0 hsle x0 (List.mem_cons_self x0 rest)
    have hbsort := buildGridAux_sorted ((x0 :: rest).getLastD 0) δ hδ
      ((x0 :: rest).getLastD 0 - x0).toNat x0
    have hbhead := buildGridAux_head? ((x0 :: rest).getLastD 0) δ
      ((x0 :: rest).getLastD 0 - x0).toNat x0
    have hblow := buildGridAux_lower ((x0 :: rest).getLastD 0) δ hδ
      ((x0 :: rest).getLastD 0 - x0).toNat x0
    have hble := buildGridAux_le ((x0 :: rest).getLastD 0) δ
      ((x0 :: rest).getLastD 0 - x0).toNat x0 hx0l
    have hx0base : x0 ∈ buildGrid x0 ((x0 :: rest).getLastD 0) δ := by
      rw [buildGrid]
      cases hb : buildGridAux ((x0 :: rest).getLastD 0) δ
          ((x0 :: rest).getLastD 0 - x0).toNat x0 with
      | nil => rw [hb] at hbhead; simp at hbhead
      | cons a bs =>
        rw [hb] at hbhead
        simp only [List.head?_cons, Option.some.injEq] at hbhead
        rw [hbhead]
        exact List.mem_cons_self x0 bs
    cases ko with
    | false =>
      have hgf : gridFull (x0 :: rest) δ false =
          buildGrid x0 ((x0 :: rest).getLastD 0) δ := rfl
      rw [hgf]
      refine ⟨hbsort, hbhead, hble, ?_, hinterp⟩
      intro hko
      cases hko
    | true =>
      have hgf : gridFull (x0 :: rest) δ true =
          List.insertionSort (fun a b : ℤ => a ≤ b)
            ((buildGrid x0 ((x0 :: rest).getLastD 0) δ ++
              (x0 :: rest)).dedup) := rfl
      have hperm := List.perm_insertionSort (fun a b : ℤ => a ≤ b)
        ((buildGrid x0 ((x0 :: rest).getLastD 0) δ ++ (x0 :: rest)).dedup)
      have hnodup : (gridFull (x0 :: rest) δ true).Nodup := by
        rw [hgf]
        exact hperm.nodup_iff.mpr (List.nodup_dedup _)
      have hsortle : List.Sorted (fun a b : ℤ => a ≤ b)
          (gridFull (x0 :: rest) δ true) := by
        rw [hgf]
        exact List.sorted_insertionSort _ _
      have hmem : ∀ z : ℤ, z ∈ gridFull (x0 :: rest) δ true ↔
          z ∈ buildGrid x0 ((x0 :: rest).getLastD 0) δ ∨
          z ∈ x0 :: rest := by
        intro z
        rw [hgf, hperm.mem_iff, List.mem_dedup, List.mem_append]
      have hlow : ∀ z ∈ gridFull (x0 :: rest) δ true, x0 ≤ z := by
        intro z hz
        rcases (hmem z).mp hz with h | h
        · exact hblow z h
        · exact headI_le_of_sorted _ hsle z h
      have hx0g : x0 ∈ gridFull (x0 :: rest) δ true :=
        (hmem x0).mpr (Or.inl hx0base)
      refine ⟨sorted_lt_of_le_nodup _ hsortle hnodup,
        head?_eq_of_min _ x0 hsortle hx0g hlow, ?_, ?_, hinterp⟩
      · intro z hz
        rcases (hmem z).mp hz with h | h
        · exact hble z h
        · exact le_getLastD_of_sorted _ 0 hsle z h
      · intro _ z hz
        exact List.count_eq_one_of_mem hnodup ((hmem z).mpr (Or.inr hz))

/-- C8 witness: the two-sample series 0, 2 with step 1 and
`keep_old = true`. -/
theorem c8_witness :
    List.Sorted (fun a b : ℤ => a < b) (gridFull [0, 2] 1 true) ∧
    (gridFull [0, 2] 1 true).head? = some (([0, 2] : List ℤ).headI) ∧
    (∀ z ∈ gridFull [0, 2] 1 true, z ≤ ([0, 2] : List ℤ).getLastD 0) ∧
    (true = true → ∀ z ∈ ([0, 2] : List ℤ),
      (gridFull [0, 2] 1 true).count z = 1) ∧
    (∀ (F : List (ℤ × ℚ) → Except Unit (ℤ → ℚ)) (y : List ℚ)
        (mi : Option ℤ) (r : List ℤ × List ℚ × List ℕ),
      interpolate F [0, 2] y 1 true mi = Except.ok r →
        r.1 = gridFull [0, 2] 1 true) :=
  c8_grid_invariants [0, 2] 1 true (by decide) (by decide) (by decide)
